import Mathlib

/-! Shallow embedding of the PRF exploration script `explore_prf.py`: the
pixel-offset assignment grid (`find_pixel_offsets`), the PRF sample
extraction (`get_prf_data`) and the boundary padding (`pad_prf_data`),
together with proofs of the specification claims about them.

Machine floats are modelled by `ℚ`; the all-NaN sentinel of the structured
offsets array is modelled by `Option` (`none` = invalid cell).  Pixel indices
are modelled by `ℤ` (the grid is a total function on `ℤ × ℤ`; pixels outside
every clipped extraction rectangle are never written, matching the dense
array initialised to NaN). -/

namespace ExplorePrf

/-- A catalogue source as used by `find_pixel_offsets`: position (`x`, `y`),
flux normalisation (`flux`) and background level (`bg`). -/
structure Source where
  x : ℚ
  y : ℚ
  flux : ℚ
  bg : ℚ
  deriving DecidableEq

/-- The `--prf-range` configuration `(width, height, x_offset, y_offset)`:
`prf_range[0] = width`, `prf_range[1] = height`, `prf_range[2] = xOffset`,
`prf_range[3] = yOffset`. -/
structure PrfRange where
  width : ℚ
  height : ℚ
  xOffset : ℚ
  yOffset : ℚ
  deriving DecidableEq

/-- The `image_resolution` pair: component 1 is the number of rows (`max_y` is clipped
to `image_resolution[0]`), component 2 the number of columns (`max_x` is
clipped to `image_resolution[1]`). -/
abbrev Resolution := ℕ × ℕ

/-- One cell of the structured offsets array returned by
`find_pixel_offsets`; an invalid cell (all fields NaN) is `none`. -/
structure Cell where
  x_off : ℚ
  y_off : ℚ
  norm : ℚ
  zero_point : ℚ
  deriving DecidableEq

/-- Unclipped bound `int(scipy.floor(this_source['x'] - prf_range[2]))`. -/
def rawMinX (pr : PrfRange) (s : Source) : ℤ := ⌊s.x - pr.xOffset⌋

/-- Unclipped bound
`int(scipy.ceil(this_source['x'] - prf_range[2] + prf_range[0]))`. -/
def rawMaxX (pr : PrfRange) (s : Source) : ℤ := ⌈s.x - pr.xOffset + pr.width⌉

/-- Unclipped bound `int(scipy.floor(this_source['y'] - prf_range[3]))`. -/
def rawMinY (pr : PrfRange) (s : Source) : ℤ := ⌊s.y - pr.yOffset⌋

/-- Unclipped bound
`int(scipy.ceil(this_source['y'] - prf_range[3] + prf_range[1]))`. -/
def rawMaxY (pr : PrfRange) (s : Source) : ℤ := ⌈s.y - pr.yOffset + pr.height⌉

/-- Clipped `min_x`: the raw lower x bound clipped to the image (`max(…, 0)`). -/
def minX (pr : PrfRange) (s : Source) : ℤ := max (rawMinX pr s) 0

/-- Clipped `max_x`: the raw upper x bound clipped to `image_resolution[1]`. -/
def maxX (pr : PrfRange) (res : Resolution) (s : Source) : ℤ :=
  min (rawMaxX pr s) (res.2 : ℤ)

/-- Clipped `min_y`: the raw lower y bound clipped to the image (`max(…, 0)`). -/
def minY (pr : PrfRange) (s : Source) : ℤ := max (rawMinY pr s) 0

/-- Clipped `max_y`: the raw upper y bound clipped to `image_resolution[0]`. -/
def maxY (pr : PrfRange) (res : Resolution) (s : Source) : ℤ :=
  min (rawMaxY pr s) (res.1 : ℤ)

/-- Membership of pixel `(px, py)` in the clipped extraction rectangle of
source `s`, i.e. in the slice `result[min_y : max_y, min_x : max_x]`. -/
def inRect (pr : PrfRange) (res : Resolution) (s : Source) (px py : ℤ) : Bool :=
  decide (minX pr s ≤ px) && decide (px < maxX pr res s) &&
    decide (minY pr s ≤ py) && decide (py < maxY pr res s)

/-- Squared Euclidean distance between two source positions. -/
def distSq (a b : Source) : ℚ := (b.x - a.x) ^ 2 + (b.y - a.y) ^ 2

/-- Crowding flag `source_tree.query_ball_point(source_tree.data, crowding_distance,
return_length=True) > 1` for one source: the `cKDTree` ball is closed
(points at distance exactly `crowding_distance` are counted) and contains the
query point itself.  For a negative radius the ball is empty (no distance is
`≤` a negative number), hence the `0 ≤ d` conjunct; `dist ≤ d` is encoded on
`ℚ` as `0 ≤ d ∧ dist² ≤ d²`. -/
def isCrowded (l : List Source) (d : ℚ) (s : Source) : Bool :=
  decide (0 ≤ d) &&
    decide (1 < l.countP (fun t => decide (distSq s t ≤ d ^ 2)))

/-- The values written into `result_patch` for source `s` at pixel
`(px, py)`: `x_off = px - x + 0.5`, `y_off = py - y + 0.5`,
`norm = flux`, `zero_point = bg`. -/
def cellOf (s : Source) (px py : ℤ) : Cell :=
  ⟨(px : ℚ) - s.x + 1 / 2, (py : ℚ) - s.y + 1 / 2, s.flux, s.bg⟩

/-- The mutable state of the `find_pixel_offsets` loop: the structured
`result` array and the boolean `shared` array. -/
structure GridState where
  grid : ℤ → ℤ → Option Cell
  shared : ℤ → ℤ → Bool

/-- Initial state: `result` full of NaN and `shared` full of `False`. -/
def initState : GridState := ⟨fun _ _ => none, fun _ _ => false⟩

/-- One iteration of the `for this_source, crowded in zip(...)` loop body:
first the `shared` update (the entire rectangle for a crowded source,
otherwise only the pixels whose current `x_off` is finite), then the
unconditional overwrite of the rectangle in `result`. -/
def processSource (pr : PrfRange) (res : Resolution) (crowded : Bool)
    (s : Source) (st : GridState) : GridState where
  grid := fun px py =>
    if inRect pr res s px py then some (cellOf s px py) else st.grid px py
  shared := fun px py =>
    if inRect pr res s px py then
      if crowded then true else st.shared px py || (st.grid px py).isSome
    else st.shared px py

/-- The source loop with an arbitrary crowded-flag assignment `f`. -/
def runWith (f : Source → Bool) (pr : PrfRange) (res : Resolution)
    (l : List Source) (st : GridState) : GridState :=
  l.foldl (fun st s => processSource pr res (f s) s st) st

/-- The source loop of `find_pixel_offsets`, with the crowded flags computed
from the full source list (the tree is built before the loop). -/
def runSources (l : List Source) (pr : PrfRange) (res : Resolution)
    (d : ℚ) : GridState :=
  runWith (isCrowded l d) pr res l initState

/-- The function `find_pixel_offsets(sources, prf_range, image_resolution,
crowding_distance)` read at pixel `(px, py)`: after the loop, the final pass
`result[shared] = scipy.nan` invalidates every shared pixel. -/
def findPixelOffsets (l : List Source) (pr : PrfRange) (res : Resolution)
    (d : ℚ) (px py : ℤ) : Option Cell :=
  if (runSources l pr res d).shared px py then none
  else (runSources l pr res d).grid px py

/-- Unfolding one trailing iteration of the source loop. -/
theorem runWith_append (f : Source → Bool) (pr : PrfRange) (res : Resolution)
    (l : List Source) (a : Source) (st : GridState) :
    runWith f pr res (l ++ [a]) st =
      processSource pr res (f a) a (runWith f pr res l st) := by
  simp [runWith, List.foldl_append]

/-- After the loop, a pixel's `result` cell is the one written by the last
source whose clipped rectangle contains it (`none` if no rectangle does). -/
theorem grid_runWith (f : Source → Bool) (pr : PrfRange) (res : Resolution)
    (l : List Source) (px py : ℤ) :
    (runWith f pr res l initState).grid px py =
      (l.reverse.find? (fun s => inRect pr res s px py)).map
        (fun s => cellOf s px py) := by
  induction l using List.reverseRecOn with
  | nil => rfl
  | append_singleton t a ih =>
    rw [runWith_append]
    by_cases h : inRect pr res a px py
    · simp [processSource, h]
    · simp [processSource, h, ih]

/-- After the loop, a pixel's `result` cell is assigned iff some source's
clipped rectangle contains the pixel. -/
theorem grid_isSome_iff (f : Source → Bool) (pr : PrfRange) (res : Resolution)
    (l : List Source) (px py : ℤ) :
    ((runWith f pr res l initState).grid px py).isSome = true ↔
      0 < l.countP (fun s => inRect pr res s px py) := by
  rw [grid_runWith]
  simp

/-- The `shared` component of one loop iteration, spelled out. -/
theorem processSource_shared (pr : PrfRange) (res : Resolution)
    (crowded : Bool) (s : Source) (st : GridState) (px py : ℤ) :
    (processSource pr res crowded s st).shared px py =
      if inRect pr res s px py then
        if crowded then true else st.shared px py || (st.grid px py).isSome
      else st.shared px py := rfl

/-- After the loop, a pixel is flagged `shared` iff some source flagged
crowded by `f` has the pixel in its rectangle, or the pixel lies in the
rectangles of at least two sources.  This is the order-independent
characterisation of the shared set. -/
theorem shared_runWith (f : Source → Bool) (pr : PrfRange) (res : Resolution)
    (l : List Source) (px py : ℤ) :
    (runWith f pr res l initState).shared px py = true ↔
      (∃ s ∈ l, f s = true ∧ inRect pr res s px py = true) ∨
        2 ≤ l.countP (fun s => inRect pr res s px py) := by
  induction l using List.reverseRecOn with
  | nil => simp [runWith, initState]
  | append_singleton t a ih =>
    rw [runWith_append, processSource_shared]
    have hg := grid_isSome_iff f pr res t px py
    have hcount : List.countP (fun s => inRect pr res s px py) (t ++ [a]) =
        List.countP (fun s => inRect pr res s px py) t +
          (if inRect pr res a px py = true then 1 else 0) := by
      simp [List.countP_cons]
    have hex : (∃ s ∈ t ++ [a], f s = true ∧ inRect pr res s px py = true) ↔
        ((∃ s ∈ t, f s = true ∧ inRect pr res s px py = true) ∨
          (f a = true ∧ inRect pr res a px py = true)) := by
      constructor
      · rintro ⟨s, hs, h1, h2⟩
        rcases List.mem_append.mp hs with hs | hs
        · exact Or.inl ⟨s, hs, h1, h2⟩
        · rcases List.mem_singleton.mp hs with rfl
          exact Or.inr ⟨h1, h2⟩
      · rintro (⟨s, hs, h1, h2⟩ | ⟨h1, h2⟩)
        · exact ⟨s, List.mem_append_left _ hs, h1, h2⟩
        · exact ⟨a, List.mem_append_right _ (List.mem_singleton_self a), h1, h2⟩
    rw [hcount, hex]
    cases h : inRect pr res a px py with
    | false => simp [ih]
    | true =>
      cases hf : f a with
      | true => simp
      | false =>
        simp only [if_true, Bool.false_eq_true, if_false, Bool.or_eq_true,
          ih, hg, and_true, false_and, or_false, reduceIte]
        by_cases hA : ∃ s ∈ t, f s = true ∧ inRect pr res s px py = true
        · simp [hA]
        · simp only [hA, false_or]
          omega

/-- The invalid (all-NaN) pixels of the final grid are exactly: the pixels in
no source's clipped rectangle, the pixels in a crowded source's rectangle,
and the pixels lying in at least two rectangles. -/
theorem findPixelOffsets_eq_none_iff (l : List Source) (pr : PrfRange)
    (res : Resolution) (d : ℚ) (px py : ℤ) :
    findPixelOffsets l pr res d px py = none ↔
      l.countP (fun s => inRect pr res s px py) = 0 ∨
        (∃ s ∈ l, isCrowded l d s = true ∧ inRect pr res s px py = true) ∨
          2 ≤ l.countP (fun s => inRect pr res s px py) := by
  unfold findPixelOffsets runSources
  by_cases h : (runWith (isCrowded l d) pr res l initState).shared px py = true
  · have hs := (shared_runWith (isCrowded l d) pr res l px py).mp h
    rw [if_pos h]
    refine iff_of_true rfl ?_
    rcases hs with hA | hc
    · exact Or.inr (Or.inl hA)
    · exact Or.inr (Or.inr hc)
  · rw [if_neg h]
    rw [shared_runWith] at h
    push_neg at h
    obtain ⟨hA, hc2⟩ := h
    rw [grid_runWith]
    constructor
    · intro hnone
      simp only [Option.map_eq_none', List.find?_eq_none, List.mem_reverse] at hnone
      exact Or.inl (List.countP_eq_zero.mpr hnone)
    · rintro (hc | hc | hc)
      · simp only [Option.map_eq_none', List.find?_eq_none, List.mem_reverse]
        exact List.countP_eq_zero.mp hc
      · obtain ⟨s, hs, h1, h2⟩ := hc
        exact absurd h2 (hA s hs h1)
      · omega

/-- The invalid pixel set of `find_pixel_offsets` does not depend on the
processing order of the source list. -/
theorem findPixelOffsets_none_perm (l l' : List Source) (pr : PrfRange)
    (res : Resolution) (d : ℚ) (hperm : l.Perm l') (px py : ℤ) :
    (findPixelOffsets l' pr res d px py = none ↔
      findPixelOffsets l pr res d px py = none) := by
  rw [findPixelOffsets_eq_none_iff, findPixelOffsets_eq_none_iff]
  have hcrowd : ∀ s, isCrowded l' d s = isCrowded l d s := by
    intro s
    unfold isCrowded
    rw [← hperm.countP_eq]
  rw [← hperm.countP_eq]
  simp only [hcrowd, hperm.symm.mem_iff]

/-- C1: for every list of sources and any pair of sources whose clipped
extraction rectangles overlap, every pixel in the overlap is invalid
(`none`, the all-NaN sentinel) in the grid returned by
`find_pixel_offsets`, and the set of invalid pixels is the same for every
processing order (permutation) of the source list. -/
theorem C1_overlap_invalid_order_independent
    (l1 l2 : List Source) (s1 s2 : Source) (pr : PrfRange) (res : Resolution)
    (d : ℚ) (hs2 : s2 ∈ l1 ++ l2) (px py : ℤ)
    (h1 : inRect pr res s1 px py = true) (h2 : inRect pr res s2 px py = true) :
    findPixelOffsets (l1 ++ s1 :: l2) pr res d px py = none ∧
      ∀ l' : List Source, (l1 ++ s1 :: l2).Perm l' → ∀ qx qy : ℤ,
        (findPixelOffsets l' pr res d qx qy = none ↔
          findPixelOffsets (l1 ++ s1 :: l2) pr res d qx qy = none) := by
  constructor
  · have hpos : 0 < (l1 ++ l2).countP (fun s => inRect pr res s px py) :=
      List.countP_pos_iff.mpr ⟨s2, hs2, h2⟩
    have hcnt : 2 ≤ (l1 ++ s1 :: l2).countP (fun s => inRect pr res s px py) := by
      simp only [List.countP_append, List.countP_cons, h1, if_pos] at *
      omega
    exact (findPixelOffsets_eq_none_iff _ pr res d px py).mpr
      (Or.inr (Or.inr hcnt))
  · intro l' hp qx qy
    exact findPixelOffsets_none_perm _ l' pr res d hp qx qy

theorem C1_witness :
    findPixelOffsets [⟨0, 0, 1, 0⟩, ⟨0, 0, 1, 0⟩] ⟨2, 2, 1, 1⟩ (4, 4) 1 0 0 =
      none :=
  (C1_overlap_invalid_order_independent [⟨0, 0, 1, 0⟩] [] ⟨0, 0, 1, 0⟩
    ⟨0, 0, 1, 0⟩ ⟨2, 2, 1, 1⟩ (4, 4) 1 (by simp) 0 0
    (by norm_num [inRect, minX, maxX, minY, maxY, rawMinX, rawMaxX, rawMinY,
      rawMaxY, max_def, min_def])
    (by norm_num [inRect, minX, maxX, minY, maxY, rawMinX, rawMaxX, rawMinY,
      rawMaxY, max_def, min_def])).1

/-- C2: a source is flagged crowded iff the count of sources (including
itself) within the closed ball of radius `crowding_distance` exceeds 1
(`distance ≤ crowding_distance` counts, encoded on `ℚ` as
`0 ≤ d ∧ dist² ≤ d²`); and for two sources 0.5 pixels apart
(`distSq = 1/4`) with `crowding_distance = 1`, both are flagged crowded and
every pixel of both of their rectangles is invalid in the final grid. -/
theorem C2_crowded_iff_closed_ball
    (l : List Source) (d : ℚ) (s : Source)
    (s1 s2 : Source) (pr : PrfRange) (res : Resolution) (px py : ℤ)
    (hdist : distSq s1 s2 = 1 / 4)
    (hpx : inRect pr res s1 px py = true ∨ inRect pr res s2 px py = true) :
    (isCrowded l d s = true ↔
      1 < l.countP (fun t => decide (0 ≤ d ∧ distSq s t ≤ d ^ 2))) ∧
      isCrowded [s1, s2] 1 s1 = true ∧ isCrowded [s1, s2] 1 s2 = true ∧
        findPixelOffsets [s1, s2] pr res 1 px py = none := by
  have hsym : distSq s2 s1 = 1 / 4 := by
    rw [← hdist]
    unfold distSq
    ring
  have hself : ∀ u : Source, distSq u u = 0 := by
    intro u
    unfold distSq
    ring
  have hc1 : isCrowded [s1, s2] 1 s1 = true := by
    unfold isCrowded
    norm_num [List.countP_cons, hself, hdist]
  have hc2 : isCrowded [s1, s2] 1 s2 = true := by
    unfold isCrowded
    norm_num [List.countP_cons, hself, hsym]
  refine ⟨?_, hc1, hc2, ?_⟩
  · unfold isCrowded
    by_cases hd : 0 ≤ d
    · have hpred : (fun t => decide (0 ≤ d ∧ distSq s t ≤ d ^ 2)) =
          (fun t => decide (distSq s t ≤ d ^ 2)) := by
        funext t
        simp [hd]
      rw [hpred]
      simp [hd]
    · have hz : l.countP (fun t => decide (0 ≤ d ∧ distSq s t ≤ d ^ 2)) = 0 :=
        List.countP_eq_zero.mpr (fun a _ => by simp [hd])
      simp [hd, hz]
  · refine (findPixelOffsets_eq_none_iff _ pr res 1 px py).mpr (Or.inr (Or.inl ?_))
    rcases hpx with hpx | hpx
    · exact ⟨s1, by simp, hc1, hpx⟩
    · exact ⟨s2, by simp, hc2, hpx⟩

theorem C2_witness :
    findPixelOffsets [⟨0, 0, 1, 0⟩, ⟨1 / 2, 0, 1, 0⟩] ⟨2, 2, 1, 1⟩ (4, 4) 1
      0 0 = none :=
  (C2_crowded_iff_closed_ball [] 0 ⟨0, 0, 1, 0⟩ ⟨0, 0, 1, 0⟩ ⟨1 / 2, 0, 1, 0⟩
    ⟨2, 2, 1, 1⟩ (4, 4) 0 0 (by norm_num [distSq])
    (Or.inl (by norm_num [inRect, minX, maxX, minY, maxY, rawMinX, rawMaxX,
      rawMinY, rawMaxY, max_def, min_def]))).2.2.2

/-- C3: for every non-crowded source whose clipped extraction rectangle
overlaps no other source's rectangle, every cell of that rectangle in the
grid returned by `find_pixel_offsets` equals
`x_off = pixel_x - source_x + 0.5`, `y_off = pixel_y - source_y + 0.5`,
`norm` = the source's flux and `zero_point` = the source's background. -/
theorem C3_isolated_source_cells
    (l1 l2 : List Source) (s : Source) (pr : PrfRange) (res : Resolution)
    (d : ℚ)
    (hcrowd : isCrowded (l1 ++ s :: l2) d s = false)
    (hdisj : ∀ t ∈ l1 ++ l2, ∀ qx qy : ℤ,
      inRect pr res s qx qy = true → inRect pr res t qx qy = false)
    (px py : ℤ) (hin : inRect pr res s px py = true) :
    findPixelOffsets (l1 ++ s :: l2) pr res d px py =
      some ⟨(px : ℚ) - s.x + 1 / 2, (py : ℚ) - s.y + 1 / 2, s.flux, s.bg⟩ := by
  have hother : ∀ t ∈ l1 ++ l2, inRect pr res t px py = false :=
    fun t ht => hdisj t ht px py hin
  have hcnt : (l1 ++ s :: l2).countP (fun u => inRect pr res u px py) = 1 := by
    have ha : l1.countP (fun u => inRect pr res u px py) = 0 :=
      List.countP_eq_zero.mpr
        (fun a ha => by simp [hother a (List.mem_append_left _ ha)])
    have hb : l2.countP (fun u => inRect pr res u px py) = 0 :=
      List.countP_eq_zero.mpr
        (fun a ha => by simp [hother a (List.mem_append_right _ ha)])
    simp [List.countP_append, List.countP_cons, ha, hb, hin]
  have hnotshared :
      (runWith (isCrowded (l1 ++ s :: l2) d) pr res (l1 ++ s :: l2)
        initState).shared px py = false := by
    rw [Bool.eq_false_iff]
    intro hsh
    rcases (shared_runWith _ pr res _ px py).mp hsh with ⟨u, hu, hcu, hru⟩ | hc
    · rcases List.mem_append.mp hu with hu | hu
      · exact absurd hru (by simp [hother u (List.mem_append_left _ hu)])
      · rcases List.mem_cons.mp hu with rfl | hu
        · exact absurd hcu (by simp [hcrowd])
        · exact absurd hru (by simp [hother u (List.mem_append_right _ hu)])
    · omega
  unfold findPixelOffsets runSources
  rw [hnotshared]
  simp only [Bool.false_eq_true, if_false]
  rw [grid_runWith]
  have hfind : (l1 ++ s :: l2).reverse.find? (fun u => inRect pr res u px py) =
      some s := by
    rw [List.reverse_append, List.reverse_cons, List.find?_append,
      List.find?_append]
    have hl2 : l2.reverse.find? (fun u => inRect pr res u px py) = none :=
      List.find?_eq_none.mpr (fun x hx => by
        simp [hother x (List.mem_append_right _ (List.mem_reverse.mp hx))])
    have hs : [s].find? (fun u => inRect pr res u px py) = some s := by
      simp [List.find?, hin]
    rw [hl2, hs]
    rfl
  rw [hfind]
  rfl

theorem C3_witness :
    findPixelOffsets [⟨10, 10, 100, 5⟩] ⟨11, 8, 4, 4⟩ (20, 20) 1 10 10 =
      some ⟨1 / 2, 1 / 2, 100, 5⟩ :=
  (C3_isolated_source_cells [] [] ⟨10, 10, 100, 5⟩ ⟨11, 8, 4, 4⟩ (20, 20) 1
    (by norm_num [isCrowded, List.countP_cons, List.countP_nil, distSq])
    (by simp) 10 10
    (by norm_num [inRect, minX, maxX, minY, maxY, rawMinX, rawMaxX, rawMinY,
      rawMaxY, max_def, min_def])).trans (by norm_num)

/-- C9 counterexample: for the source at `(10.5, 10.5)` with
`prf_range = (3, 3, 1, 1)` on a 20×20 image, no clipping occurs (the clipped
bounds equal the raw floor/ceil bounds), yet `max_x - min_x = 13 - 9 = 4`,
which differs from `width = 3`.  The floor/ceil anchoring makes the
rectangle larger than `(width, height)` whenever the source position is not
aligned with the pixel grid. -/
theorem C9_counterexample :
    minX ⟨3, 3, 1, 1⟩ ⟨21 / 2, 21 / 2, 1, 0⟩ =
        rawMinX ⟨3, 3, 1, 1⟩ ⟨21 / 2, 21 / 2, 1, 0⟩ ∧
      maxX ⟨3, 3, 1, 1⟩ (20, 20) ⟨21 / 2, 21 / 2, 1, 0⟩ =
        rawMaxX ⟨3, 3, 1, 1⟩ ⟨21 / 2, 21 / 2, 1, 0⟩ ∧
      minY ⟨3, 3, 1, 1⟩ ⟨21 / 2, 21 / 2, 1, 0⟩ =
        rawMinY ⟨3, 3, 1, 1⟩ ⟨21 / 2, 21 / 2, 1, 0⟩ ∧
      maxY ⟨3, 3, 1, 1⟩ (20, 20) ⟨21 / 2, 21 / 2, 1, 0⟩ =
        rawMaxY ⟨3, 3, 1, 1⟩ ⟨21 / 2, 21 / 2, 1, 0⟩ ∧
      ((maxX ⟨3, 3, 1, 1⟩ (20, 20) ⟨21 / 2, 21 / 2, 1, 0⟩ -
          minX ⟨3, 3, 1, 1⟩ ⟨21 / 2, 21 / 2, 1, 0⟩ : ℤ) : ℚ) ≠
        (⟨3, 3, 1, 1⟩ : PrfRange).width := by
  have h25 : (⌈(25 : ℚ) / 2⌉ : ℤ) = 13 := by norm_num [Int.ceil_eq_iff]
  norm_num [minX, maxX, minY, maxY, rawMinX, rawMaxX, rawMinY, rawMaxY,
    max_def, min_def, h25]

/-- C9 (amended): the unclipped rectangle of `find_pixel_offsets` satisfies
`max_x - min_x = ⌈x - x_offset + width⌉ - ⌊x - x_offset⌋ ≥ width` (and
likewise for y), with equality whenever `x - x_offset` and `width` are both
integers; the size equals `(width, height)` only in that aligned case, not in
general. -/
theorem C9_amended_rect_size (pr : PrfRange) (s : Source) :
    (pr.width ≤ ((rawMaxX pr s - rawMinX pr s : ℤ) : ℚ) ∧
      pr.height ≤ ((rawMaxY pr s - rawMinY pr s : ℤ) : ℚ)) ∧
    ((∃ n : ℤ, s.x - pr.xOffset = (n : ℚ)) → (∃ m : ℤ, pr.width = (m : ℚ)) →
      ((rawMaxX pr s - rawMinX pr s : ℤ) : ℚ) = pr.width) ∧
    ((∃ n : ℤ, s.y - pr.yOffset = (n : ℚ)) → (∃ m : ℤ, pr.height = (m : ℚ)) →
      ((rawMaxY pr s - rawMinY pr s : ℤ) : ℚ) = pr.height) := by
  refine ⟨⟨?_, ?_⟩, ?_, ?_⟩
  · have h1 := Int.le_ceil (s.x - pr.xOffset + pr.width)
    have h2 := Int.floor_le (s.x - pr.xOffset)
    unfold rawMaxX rawMinX
    push_cast
    linarith
  · have h1 := Int.le_ceil (s.y - pr.yOffset + pr.height)
    have h2 := Int.floor_le (s.y - pr.yOffset)
    unfold rawMaxY rawMinY
    push_cast
    linarith
  · rintro ⟨n, hn⟩ ⟨m, hm⟩
    unfold rawMaxX rawMinX
    rw [hn, hm, ← Int.cast_add, Int.ceil_intCast, Int.floor_intCast]
    push_cast
    ring
  · rintro ⟨n, hn⟩ ⟨m, hm⟩
    unfold rawMaxY rawMinY
    rw [hn, hm, ← Int.cast_add, Int.ceil_intCast, Int.floor_intCast]
    push_cast
    ring

theorem C9_amended_witness :
    ((rawMaxX ⟨11, 8, 4, 4⟩ ⟨10, 10, 100, 5⟩ -
        rawMinX ⟨11, 8, 4, 4⟩ ⟨10, 10, 100, 5⟩ : ℤ) : ℚ) = (11 : ℚ) := by
  have h := (C9_amended_rect_size ⟨11, 8, 4, 4⟩ ⟨10, 10, 100, 5⟩).2.1
    ⟨6, by norm_num⟩ ⟨11, by norm_num⟩
  simpa using h

/-- One PRF sample (one column of the 4-row stacked array returned by
`get_prf_data` and consumed by `pad_prf_data`): row 0 is the x offset, row 1
the y offset, row 2 the normalised value, row 3 the normalised error. -/
structure Sample where
  x : ℚ
  y : ℚ
  val : ℚ
  err : ℚ
  deriving DecidableEq

/-- Per-pixel `(pixel_values - pixel_offsets['zero_point']) / pixel_offsets['norm']`
for one pixel, with a non-finite float result modelled as `none`: the result
is NaN when the cell is the all-NaN sentinel, and NaN or ±inf when `norm` is
zero; otherwise it is finite. -/
def prfMeasurement (v : ℚ) (cell : Option Cell) : Option ℚ :=
  match cell with
  | none => none
  | some c => if c.norm = 0 then none else some ((v - c.zero_point) / c.norm)

/-- Per-pixel `pixel_stddev / pixel_offsets['norm']`, with non-finite
results as `none` (same cases as `prfMeasurement`). -/
def prfError (sd : ℚ) (cell : Option Cell) : Option ℚ :=
  match cell with
  | none => none
  | some c => if c.norm = 0 then none else some (sd / c.norm)

/-- One pixel's contribution to `get_prf_data`: the pixel is in the
`include` mask iff its measurement and error are finite and
`prf_errors < error_threshold`, and then it contributes
`(x_off, y_off, measurement, error)`. -/
def sampleOf (thr : ℚ) (v sd : ℚ) (cell : Option Cell) : Option Sample :=
  match cell with
  | none => none
  | some c =>
    match prfMeasurement v (some c), prfError sd (some c) with
    | some pv, some pe =>
        if pe < thr then some ⟨c.x_off, c.y_off, pv, pe⟩ else none
    | _, _ => none

/-- The function `get_prf_data(pixel_values, pixel_stddev, pixel_offsets,
error_threshold)`: the patch entries `(pixel_value, stddev, cell)` are
listed in row-major order; the output keeps the included pixels in the same
order (boolean-mask selection preserves row-major order). -/
def getPrfData (patch : List (ℚ × ℚ × Option Cell)) (thr : ℚ) :
    List Sample :=
  patch.filterMap (fun t => sampleOf thr t.1 t.2.1 t.2.2)

/-- C4: every sample returned by `get_prf_data` comes from a patch entry
with a valid cell and nonzero norm, and has
`normalized_value = (pixel_value - zero_point) / norm` and
`normalized_error = stddev / norm` (both finite, being rationals) with
`normalized_error < error_threshold`; and a pixel is included iff its
measurement and error are both finite (`isSome`) and the error is below the
threshold, so no returned sample has a non-finite value/error or an error
at or above the threshold. -/
theorem C4_extracted_samples (patch : List (ℚ × ℚ × Option Cell)) (thr : ℚ) :
    (∀ s ∈ getPrfData patch thr, ∃ t ∈ patch, ∃ c, t.2.2 = some c ∧
      c.norm ≠ 0 ∧ s.val = (t.1 - c.zero_point) / c.norm ∧
        s.err = t.2.1 / c.norm ∧ s.err < thr) ∧
    (∀ v sd : ℚ, ∀ cell : Option Cell,
      (sampleOf thr v sd cell).isSome = true ↔
        ((prfMeasurement v cell).isSome = true ∧
          ∃ e, prfError sd cell = some e ∧ e < thr)) := by
  constructor
  · intro s hs
    rw [getPrfData, List.mem_filterMap] at hs
    obtain ⟨t, ht, heq⟩ := hs
    refine ⟨t, ht, ?_⟩
    rcases hc : t.2.2 with _ | c
    · rw [hc] at heq
      simp [sampleOf] at heq
    · refine ⟨c, rfl, ?_⟩
      rw [hc] at heq
      by_cases hn : c.norm = 0
      · simp [sampleOf, prfMeasurement, prfError, hn] at heq
      · simp only [sampleOf, prfMeasurement, prfError, if_neg hn] at heq
        by_cases hlt : t.2.1 / c.norm < thr
        · rw [if_pos hlt] at heq
          injection heq with h
          subst h
          exact ⟨hn, rfl, rfl, hlt⟩
        · rw [if_neg hlt] at heq
          exact absurd heq (by simp)
  · intro v sd cell
    rcases cell with _ | c
    · simp [sampleOf, prfMeasurement]
    · by_cases hn : c.norm = 0
      · simp [sampleOf, prfMeasurement, prfError, hn]
      · by_cases hlt : sd / c.norm < thr
        · simp [sampleOf, prfMeasurement, prfError, if_neg hn, hlt]
        · simp [sampleOf, prfMeasurement, prfError, if_neg hn, hlt]

theorem C4_witness :
    ∃ t ∈ [((55 : ℚ), (1 : ℚ), some (⟨1 / 2, 1 / 2, 100, 5⟩ : Cell))],
      ∃ c, t.2.2 = some c ∧ c.norm ≠ 0 ∧
        ((⟨1 / 2, 1 / 2, 1 / 2, 1 / 100⟩ : Sample)).val =
          (t.1 - c.zero_point) / c.norm ∧
        ((⟨1 / 2, 1 / 2, 1 / 2, 1 / 100⟩ : Sample)).err = t.2.1 / c.norm ∧
        ((⟨1 / 2, 1 / 2, 1 / 2, 1 / 100⟩ : Sample)).err < 1 / 10 :=
  (C4_extracted_samples [((55 : ℚ), (1 : ℚ), some ⟨1 / 2, 1 / 2, 100, 5⟩)]
    (1 / 10)).1 ⟨1 / 2, 1 / 2, 1 / 2, 1 / 100⟩
    (by norm_num [getPrfData, sampleOf, prfMeasurement, prfError,
      List.filterMap_cons])

/-- The spline fit domain `(xmin, xmax, ymin, ymax)` computed by
`pad_prf_data` (`domain[0]`, `domain[1]`, `domain[2]`, `domain[3]`). -/
structure Domain where
  xmin : ℚ
  xmax : ℚ
  ymin : ℚ
  ymax : ℚ
  deriving DecidableEq

/-- Model of `scipy.linspace(s, e, n)`: `n` evenly spaced points from `s` to `e`
inclusive (`[s]` for `n = 1`, empty for `n = 0`). -/
def linspace (s e : ℚ) (n : ℕ) : List ℚ :=
  if n ≤ 1 then List.replicate n s
  else (List.range n).map
    (fun i : ℕ => s + (e - s) * (i : ℚ) / ((n : ℚ) - 1))

/-- Row-major flattening of the two `scipy.meshgrid(xs, ys)` arrays as a
list of `(x, y)` pairs: the y index varies in the outer loop. -/
def meshPts (xs ys : List ℚ) : List (ℚ × ℚ) :=
  ys.flatMap (fun cy => xs.map (fun cx => (cx, cy)))

/-- Model of `scipy.linspace(s, e, n)[1:-1]`: the interior points only. -/
def innerPoints (s e : ℚ) (n : ℕ) : List ℚ :=
  ((linspace s e n).drop 1).dropLast

/-- The count `middle_npoints = int(spline_pad_npoints / spline_pad_fraction)`.
Python `int()` truncates toward zero; `Int.toNat ∘ Int.floor` agrees with it
in every case in which `pad_prf_data` completes (the ratio is then either
nonnegative or in `(-1, 0)`, see `padPrfData`). -/
def middleNpoints (pn : ℕ) (pf : ℚ) : ℕ := (⌊(pn : ℚ) / pf⌋).toNat

/-- The margin `x_padding = prf_range[0] * spline_pad_fraction`. -/
def xPadding (pr : PrfRange) (pf : ℚ) : ℚ := pr.width * pf

/-- The margin `y_padding = prf_range[1] * spline_pad_fraction`. -/
def yPadding (pr : PrfRange) (pf : ℚ) : ℚ := pr.height * pf

/-- The `domain` tuple computed by `pad_prf_data`. -/
def padDomain (pr : PrfRange) (pf : ℚ) : Domain :=
  ⟨-pr.xOffset - xPadding pr pf,
    pr.width - pr.xOffset + xPadding pr pf,
    -pr.yOffset - yPadding pr pf,
    pr.height - pr.yOffset + yPadding pr pf⟩

/-- The `keep_prf_data` mask of `pad_prf_data`: strictly inside the
unpadded prf-range rectangle on both axes. -/
def insideUnpadded (pr : PrfRange) (s : Sample) : Bool :=
  decide (-pr.xOffset < s.x) && decide (s.x < pr.width - pr.xOffset) &&
    decide (-pr.yOffset < s.y) && decide (s.y < pr.height - pr.yOffset)

/-- The synthetic padding coordinates written by the fill loop of
`pad_prf_data`, in write order: for each of the two x offsets (left, then
right), first the mid-y strip, then for each of the two y offsets (bottom,
then top) the mid-x strip (first x iteration only) and the corner block. -/
def syntheticPts (pr : PrfRange) (pf : ℚ) (pn : ℕ) : List (ℚ × ℚ) :=
  let d := padDomain pr pf
  let xp := xPadding pr pf
  let yp := yPadding pr pf
  let mid := middleNpoints pn pf
  let corner := meshPts (linspace 0 xp pn) (linspace 0 yp pn)
  let midX := meshPts (innerPoints (-pr.xOffset) (pr.width - pr.xOffset)
    (mid + 2)) (linspace 0 yp pn)
  let midY := meshPts (linspace 0 xp pn)
    (innerPoints (-pr.yOffset) (pr.height - pr.yOffset) (mid + 2))
  midY.map (fun p => (p.1 + d.xmin, p.2)) ++
    (midX.map (fun p => (p.1, p.2 + d.ymin)) ++
      (corner.map (fun p => (p.1 + d.xmin, p.2 + d.ymin)) ++
        (midX.map (fun p => (p.1, p.2 + (d.ymax - yp))) ++
          (corner.map (fun p => (p.1 + d.xmin, p.2 + (d.ymax - yp))) ++
            (midY.map (fun p => (p.1 + (d.xmax - xp), p.2)) ++
              (corner.map (fun p => (p.1 + (d.xmax - xp), p.2 + d.ymin)) ++
                corner.map (fun p =>
                  (p.1 + (d.xmax - xp), p.2 + (d.ymax - yp)))))))))

/-- The value `prf_data[3, keep_prf_data].min()`: the minimum error among the kept
samples (a dummy `0` for an empty list, on which the script raises
instead). -/
def minErr : List Sample → ℚ
  | [] => 0
  | u :: t => t.foldl (fun m v => min m v.err) u.err

/-- The function `pad_prf_data(prf_data, cmdline_args)`, returning
`(padded_prf_data, domain)` with the padded array as a list of samples:
the kept real samples first, then the synthetic points with value `0` and
error `min/num_keep`.  The script raises instead of returning when
`spline_pad_fraction = 0` (`ZeroDivisionError` computing `middle_npoints`),
when no sample is strictly inside the unpadded rectangle (`min()` of an
empty array), or when `spline_pad_fraction < 0` with `int(pn / pf) ≤ -1`
(negative `scipy.linspace` length, or shape mismatch in the fill loop);
those cases are modelled as `none`.  For `pf < 0` with `(pn : ℚ) < -pf` the
truncated ratio is `0`, the mid strips are empty and the script completes,
which the guard keeps. -/
def padPrfData (data : List Sample) (pr : PrfRange) (pf : ℚ) (pn : ℕ) :
    Option (List Sample × Domain) :=
  if data.filter (insideUnpadded pr) ≠ [] ∧
      (0 < pf ∨ (pf < 0 ∧ (pn : ℚ) < -pf)) then
    some (data.filter (insideUnpadded pr) ++ (syntheticPts pr pf pn).map
        (fun p => ⟨p.1, p.2, 0, minErr (data.filter (insideUnpadded pr)) /
          ((data.filter (insideUnpadded pr)).length : ℚ)⟩),
      padDomain pr pf)
  else none

/-- C5: with zero samples strictly inside the unpadded prf-range rectangle
(in particular an empty input), `pad_prf_data` raises — the `min()` of the
empty kept-error array — rather than returning a result (modelled `none`);
it never silently produces output when the error floor is undefined. -/
theorem C5_empty_kept_errors (data : List Sample) (pr : PrfRange) (pf : ℚ)
    (pn : ℕ) (h : data.filter (insideUnpadded pr) = []) :
    padPrfData data pr pf pn = none := by
  unfold padPrfData
  simp [h]

theorem C5_witness :
    padPrfData [] ⟨2, 2, 1, 1⟩ (1 / 2) 3 = none :=
  C5_empty_kept_errors [] ⟨2, 2, 1, 1⟩ (1 / 2) 3 rfl

theorem length_linspace (s e : ℚ) (n : ℕ) : (linspace s e n).length = n := by
  unfold linspace
  split
  · simp
  · rw [List.length_map, List.length_range]

theorem length_meshPts (xs ys : List ℚ) :
    (meshPts xs ys).length = ys.length * xs.length := by
  unfold meshPts
  induction ys with
  | nil => simp
  | cons y t ih =>
    simp only [List.flatMap_cons, List.length_append, List.length_map, ih,
      List.length_cons]
    ring

theorem length_innerPoints (s e : ℚ) (m : ℕ) :
    (innerPoints s e (m + 2)).length = m := by
  unfold innerPoints
  rw [List.length_dropLast, List.length_drop, length_linspace]
  omega

/-- The number of synthetic points generated by the fill loop. -/
theorem length_syntheticPts (pr : PrfRange) (pf : ℚ) (pn : ℕ) :
    (syntheticPts pr pf pn).length =
      4 * pn * (middleNpoints pn pf + pn) := by
  unfold syntheticPts
  simp only [List.length_append, List.length_map, length_meshPts,
    length_linspace, length_innerPoints]
  ring

theorem foldl_min_le_init (l : List ℚ) (a : ℚ) : l.foldl min a ≤ a := by
  induction l generalizing a with
  | nil => simp
  | cons x t ih =>
    simp only [List.foldl_cons]
    exact le_trans (ih (min a x)) (min_le_left a x)

theorem foldl_min_le_mem (l : List ℚ) :
    ∀ (a b : ℚ), b ∈ l → l.foldl min a ≤ b := by
  induction l with
  | nil =>
    intro a b hb
    cases hb
  | cons x t ih =>
    intro a b hb
    simp only [List.foldl_cons]
    rcases List.mem_cons.mp hb with rfl | hb
    · exact le_trans (foldl_min_le_init t (min a b)) (min_le_right a b)
    · exact ih (min a x) b hb

theorem foldl_min_eq_init_or_mem (l : List ℚ) :
    ∀ a : ℚ, l.foldl min a = a ∨ l.foldl min a ∈ l := by
  induction l with
  | nil =>
    intro a
    exact Or.inl rfl
  | cons x t ih =>
    intro a
    simp only [List.foldl_cons]
    rcases ih (min a x) with h | h
    · rcases min_choice a x with hm | hm
      · exact Or.inl (h.trans hm)
      · exact Or.inr (List.mem_cons.mpr (Or.inl (h.trans hm)))
    · exact Or.inr (List.mem_cons.mpr (Or.inr h))

/-- Rewriting `minErr` as a fold of `min` over the errors. -/
theorem minErr_cons (u : Sample) (t : List Sample) :
    minErr (u :: t) = (t.map Sample.err).foldl min u.err := by
  rw [minErr, List.foldl_map]

/-- The error floor numerator is attained by some kept sample. -/
theorem minErr_mem (l : List Sample) (hl : l ≠ []) :
    ∃ u ∈ l, minErr l = u.err := by
  match l with
  | [] => exact absurd rfl hl
  | u :: t =>
    rw [minErr_cons]
    rcases foldl_min_eq_init_or_mem (t.map Sample.err) u.err with h | h
    · exact ⟨u, List.mem_cons_self u t, h⟩
    · obtain ⟨v, hv, hveq⟩ := List.mem_map.mp h
      exact ⟨v, List.mem_cons.mpr (Or.inr hv), hveq.symm⟩

/-- The error floor numerator is a lower bound for the kept errors. -/
theorem minErr_le (l : List Sample) (u : Sample) (hu : u ∈ l) :
    minErr l ≤ u.err := by
  match l with
  | v :: t =>
    rw [minErr_cons]
    rcases List.mem_cons.mp hu with rfl | hu
    · exact foldl_min_le_init _ _
    · exact foldl_min_le_mem _ _ _ (List.mem_map.mpr ⟨u, hu, rfl⟩)

/-- C6: on every input on which `pad_prf_data` returns, the number of
columns of the padded array equals
`(kept real samples) + 4*pad_npoints² + 4*pad_npoints*middle_npoints`
(four corner blocks of `pad_npoints²` and two strips per axis of
`pad_npoints*middle_npoints` each), with
`middle_npoints = pad_npoints / pad_fraction` truncated to an integer. -/
theorem C6_padded_count (data : List Sample) (pr : PrfRange) (pf : ℚ)
    (pn : ℕ) (out : List Sample) (dom : Domain)
    (h : padPrfData data pr pf pn = some (out, dom)) :
    out.length = (data.filter (insideUnpadded pr)).length +
      4 * pn ^ 2 + 4 * pn * middleNpoints pn pf := by
  unfold padPrfData at h
  split at h
  · simp only [Option.some.injEq, Prod.mk.injEq] at h
    obtain ⟨rfl, rfl⟩ := h
    rw [List.length_append, List.length_map, length_syntheticPts]
    ring
  · exact absurd h (by simp)

theorem C6_witness :
    ([(⟨0, 0, 7, 2⟩ : Sample)]).length =
      (([(⟨0, 0, 7, 2⟩ : Sample)]).filter
        (insideUnpadded ⟨2, 2, 1, 1⟩)).length +
      4 * 0 ^ 2 + 4 * 0 * middleNpoints 0 1 :=
  C6_padded_count [⟨0, 0, 7, 2⟩] ⟨2, 2, 1, 1⟩ 1 0 [⟨0, 0, 7, 2⟩]
    (padDomain ⟨2, 2, 1, 1⟩ 1)
    (by norm_num [padPrfData, insideUnpadded, syntheticPts, linspace,
      meshPts, innerPoints, List.filter])

/-- C7: on every input on which `pad_prf_data` returns, the output starts
with exactly the input samples strictly inside the unpadded rectangle
(strict inequalities on both axes, independent of the error-threshold
filter applied earlier in `get_prf_data`), unchanged and in their original
order, followed by the synthetic samples, each with normalised value `0`
and normalised error `(minimum kept error) / (number of kept samples)`;
`minErr` is genuinely the minimum of the kept errors. -/
theorem C7_output_structure (data : List Sample) (pr : PrfRange) (pf : ℚ)
    (pn : ℕ) (out : List Sample) (dom : Domain)
    (h : padPrfData data pr pf pn = some (out, dom)) :
    out.take (data.filter (insideUnpadded pr)).length =
      data.filter (fun s => decide (-pr.xOffset < s.x) &&
        decide (s.x < pr.width - pr.xOffset) &&
        decide (-pr.yOffset < s.y) &&
        decide (s.y < pr.height - pr.yOffset)) ∧
    (∀ s ∈ out.drop (data.filter (insideUnpadded pr)).length,
      s.val = 0 ∧ s.err = minErr (data.filter (insideUnpadded pr)) /
        ((data.filter (insideUnpadded pr)).length : ℚ)) ∧
    (∃ u ∈ data.filter (insideUnpadded pr),
      minErr (data.filter (insideUnpadded pr)) = u.err) ∧
    (∀ u ∈ data.filter (insideUnpadded pr),
      minErr (data.filter (insideUnpadded pr)) ≤ u.err) := by
  unfold padPrfData at h
  split at h
  case isTrue hcond =>
    simp only [Option.some.injEq, Prod.mk.injEq] at h
    obtain ⟨rfl, rfl⟩ := h
    refine ⟨?_, ?_, minErr_mem _ hcond.1, fun u hu => minErr_le _ u hu⟩
    · rw [List.take_left]
      rfl
    · rw [List.drop_left]
      intro s hs
      obtain ⟨p, _, rfl⟩ := List.mem_map.mp hs
      exact ⟨rfl, rfl⟩
  case isFalse =>
    exact absurd h (by simp)

theorem C7_witness :
    ([(⟨0, 0, 7, 2⟩ : Sample)]).take
        (([(⟨0, 0, 7, 2⟩ : Sample)]).filter
          (insideUnpadded ⟨4, 4, 2, 2⟩)).length =
      ([(⟨0, 0, 7, 2⟩ : Sample)]).filter
        (fun s => decide (-(⟨4, 4, 2, 2⟩ : PrfRange).xOffset < s.x) &&
          decide (s.x < (⟨4, 4, 2, 2⟩ : PrfRange).width -
            (⟨4, 4, 2, 2⟩ : PrfRange).xOffset) &&
          decide (-(⟨4, 4, 2, 2⟩ : PrfRange).yOffset < s.y) &&
          decide (s.y < (⟨4, 4, 2, 2⟩ : PrfRange).height -
            (⟨4, 4, 2, 2⟩ : PrfRange).yOffset)) :=
  (C7_output_structure [⟨0, 0, 7, 2⟩] ⟨4, 4, 2, 2⟩ 1 0 [⟨0, 0, 7, 2⟩]
    (padDomain ⟨4, 4, 2, 2⟩ 1)
    (by norm_num [padPrfData, insideUnpadded, syntheticPts, linspace,
      meshPts, innerPoints, List.filter])).1

/-- The unpadded prf-range rectangle: the bounds used by the
`keep_prf_data` filter. -/
def unpaddedRect (pr : PrfRange) : Domain :=
  ⟨-pr.xOffset, pr.width - pr.xOffset, -pr.yOffset, pr.height - pr.yOffset⟩

/-- A rectangle expanded outward by `ex` on each x side and `ey` on each y
side: the spec's description of the padding expansion. -/
def expandOutward (d : Domain) (ex ey : ℚ) : Domain :=
  ⟨d.xmin - ex, d.xmax + ex, d.ymin - ey, d.ymax + ey⟩

/-- C8: the domain computed (and returned) by `pad_prf_data` equals the
unpadded rectangle expanded outward by `pad_fraction × width` on each x
side and `pad_fraction × height` on each y side; whenever
`pad_fraction > 0` and the prf-range dimensions are positive, the domain
strictly contains the unpadded rectangle. -/
theorem C8_domain_expansion (pr : PrfRange) (pf : ℚ) :
    padDomain pr pf =
      expandOutward (unpaddedRect pr) (pf * pr.width) (pf * pr.height) ∧
    (0 < pf → 0 < pr.width → 0 < pr.height →
      (padDomain pr pf).xmin < (unpaddedRect pr).xmin ∧
        (unpaddedRect pr).xmax < (padDomain pr pf).xmax ∧
        (padDomain pr pf).ymin < (unpaddedRect pr).ymin ∧
        (unpaddedRect pr).ymax < (padDomain pr pf).ymax) ∧
    (∀ (data : List Sample) (pn : ℕ) (out : List Sample) (dom : Domain),
      padPrfData data pr pf pn = some (out, dom) → dom = padDomain pr pf) := by
  refine ⟨?_, ?_, ?_⟩
  · simp only [padDomain, expandOutward, unpaddedRect, xPadding, yPadding,
      Domain.mk.injEq]
    exact ⟨by ring, by ring, by ring, by ring⟩
  · intro hpf hw hh
    have hx : 0 < pr.width * pf := mul_pos hw hpf
    have hy : 0 < pr.height * pf := mul_pos hh hpf
    simp only [padDomain, unpaddedRect, xPadding, yPadding]
    exact ⟨by linarith, by linarith, by linarith, by linarith⟩
  · intro data pn out dom h
    unfold padPrfData at h
    split at h
    · simp only [Option.some.injEq, Prod.mk.injEq] at h
      exact h.2.symm
    · exact absurd h (by simp)

theorem C8_witness :
    (padDomain ⟨2, 2, 1, 1⟩ (1 / 2)).xmin <
        (unpaddedRect ⟨2, 2, 1, 1⟩).xmin ∧
      (unpaddedRect ⟨2, 2, 1, 1⟩).xmax <
        (padDomain ⟨2, 2, 1, 1⟩ (1 / 2)).xmax ∧
      (padDomain ⟨2, 2, 1, 1⟩ (1 / 2)).ymin <
        (unpaddedRect ⟨2, 2, 1, 1⟩).ymin ∧
      (unpaddedRect ⟨2, 2, 1, 1⟩).ymax <
        (padDomain ⟨2, 2, 1, 1⟩ (1 / 2)).ymax :=
  (C8_domain_expansion ⟨2, 2, 1, 1⟩ (1 / 2)).2.1 (by norm_num)
    (by norm_num) (by norm_num)

/-- C10: the synthetic-point fill loop writes every synthetic column
exactly once: it produces exactly `4*pad_npoints*(middle_npoints +
pad_npoints)` points, the allocated synthetic width of `padded_prf_data`,
so the running write position ends exactly at the allocated length past the
kept real samples, no entry of the returned array retains an unwritten
value and the result is a function of the inputs only. -/
theorem C10_fill_matches_allocation (pr : PrfRange) (pf : ℚ) (pn : ℕ) :
    (syntheticPts pr pf pn).length =
      4 * pn * (middleNpoints pn pf + pn) ∧
    (∀ (data : List Sample) (out : List Sample) (dom : Domain),
      padPrfData data pr pf pn = some (out, dom) →
        out.length = (data.filter (insideUnpadded pr)).length +
          4 * pn * (middleNpoints pn pf + pn)) := by
  refine ⟨length_syntheticPts pr pf pn, ?_⟩
  intro data out dom h
  unfold padPrfData at h
  split at h
  · simp only [Option.some.injEq, Prod.mk.injEq] at h
    obtain ⟨rfl, rfl⟩ := h
    rw [List.length_append, List.length_map, length_syntheticPts]
  · exact absurd h (by simp)

theorem C10_witness :
    ([(⟨1 / 2, 1 / 2, 7, 2⟩ : Sample)]).length =
      (([(⟨1 / 2, 1 / 2, 7, 2⟩ : Sample)]).filter
        (insideUnpadded ⟨3, 3, 1, 1⟩)).length +
      4 * 0 * (middleNpoints 0 2 + 0) :=
  (C10_fill_matches_allocation ⟨3, 3, 1, 1⟩ 2 0).2 [⟨1 / 2, 1 / 2, 7, 2⟩]
    [⟨1 / 2, 1 / 2, 7, 2⟩] (padDomain ⟨3, 3, 1, 1⟩ 2)
    (by norm_num [padPrfData, insideUnpadded, syntheticPts, linspace,
      meshPts, innerPoints, List.filter])

end ExplorePrf
